import Mathlib

/-!
# Verification of `Elite::AStar::FindPath`
(`src/_FRAMEWORK/source/framework/EliteAI/EliteGraphs/EliteGraphAlgorithms/EAStar.h`)

Shallow embedding of the templated A* path finder. Modelling decisions:

* Graph nodes are identified by their stable integer index (`Nat`); a
  `T_NodeType*` obtained from `IGraph::GetNode(idx)` is the unique node with
  that index, so pointer equality on nodes is index equality and `GetNode` is
  the identity on indices.
* Connection objects carry `GetFrom`, `GetTo` and `GetCost`; the graph's
  adjacency query `GetNodeConnections(idx)` returns, in stored order, the
  connections whose source is `idx`.  Pointer equality on connections is
  modelled as value equality (distinct parallel edges with identical data are
  not used by any claim).
* `float` costs are modelled as exact rationals (`ℚ`); the framework's
  epsilon comparison `AreEqual` is modelled as exact equality.
* The two `while` loops of `FindPath` are modelled with explicit fuel; fuel
  exhaustion is a distinguished outcome, so a run that returns a path, fails
  the `assert`, or dereferences a null connection is distinguished from one
  that merely ran out of fuel.
-/

attribute [local semireducible] Rat.add Rat.sub Rat.mul

/-- A directed, costed edge (`T_ConnectionType`): source index (`GetFrom()`),
destination index (`GetTo()`) and cost (`GetCost()`). -/
structure Connection where
  getFrom : Nat
  getTo : Nat
  cost : ℚ
deriving DecidableEq, Repr

/-- `AStar::NodeRecord`: node index, optional incoming connection
(`nullptr` ↦ `none`), accumulated g-cost and estimated total f-cost. -/
structure NodeRecord where
  pNode : Nat
  pConnection : Option Connection
  gCost : ℚ
  fCost : ℚ
deriving DecidableEq, Repr

/-- The part of `IGraph` that `FindPath` reads: the stored connection list
and each node's 2D position (`GetNodePos`). -/
structure Graph where
  conns : List Connection
  pos : Nat → ℚ × ℚ

/-- `IGraph::GetNodeConnections(idx)`: the stored connections leaving node
`idx`, in stored order. -/
def Graph.connections (G : Graph) (n : Nat) : List Connection :=
  G.conns.filter (fun c => c.getFrom == n)

/-- `AStar::GetHeuristicCost`: the heuristic applied to the absolute per-axis
displacement of the two node positions. -/
def getHeuristicCost (G : Graph) (h : ℚ → ℚ → ℚ) (s e : Nat) : ℚ :=
  h |(G.pos e).1 - (G.pos s).1| |(G.pos e).2 - (G.pos s).2|

/-- Step 2.a of `FindPath`: scan of the open list keeping the record with the
strictly lowest `fCost` (initial candidate `cur`); on ties the earlier record
is kept. -/
def selectLowest (cur : NodeRecord) : List NodeRecord → NodeRecord
  | [] => cur
  | r :: rs => selectLowest (if r.fCost < cur.fCost then r else cur) rs

/-- Step 2.d of `FindPath`: scan of the closed list for records of node `tgt`.
The flag is latched `true` on any hit; a hit with `gCost` strictly above the
candidate cost `g` is erased and the scan `break`s; on a hit with `gCost ≤ g`
the scan continues. Returns (flag, updated closed list). -/
def scanClosed (tgt : Nat) (g : ℚ) : List NodeRecord → Bool × List NodeRecord
  | [] => (false, [])
  | r :: rs =>
    if r.pNode = tgt then
      if g < r.gCost then
        (true, rs)
      else
        (true, r :: (scanClosed tgt g rs).2)
    else
      ((scanClosed tgt g rs).1, r :: (scanClosed tgt g rs).2)

/-- Step 2.e of `FindPath`: scan of the open list for a record of node `tgt`;
the scan `break`s at the first hit, erasing it when its `gCost` is strictly
above the candidate cost `g`. Returns (hit flag, updated open list). -/
def scanOpen (tgt : Nat) (g : ℚ) : List NodeRecord → Bool × List NodeRecord
  | [] => (false, [])
  | r :: rs =>
    if r.pNode = tgt then
      (true, if g < r.gCost then rs else r :: rs)
    else
      ((scanOpen tgt g rs).1, r :: (scanOpen tgt g rs).2)

/-- Steps 2.c–2.f of `FindPath` for one outgoing connection `conn` of the
current record `cur`, acting on the state `(openList, closedList)`: compute
the candidate g-cost, run the closed scan (skipping on any hit), then the
open scan (skipping on any hit), and otherwise push a fresh record. -/
def processConnection (G : Graph) (h : ℚ → ℚ → ℚ) (goal : Nat) (cur : NodeRecord)
    (st : List NodeRecord × List NodeRecord) (conn : Connection) :
    List NodeRecord × List NodeRecord :=
  let g := conn.cost + cur.gCost
  let tgt := conn.getTo
  let sc := scanClosed tgt g st.2
  if sc.1 then
    (st.1, sc.2)
  else
    let so := scanOpen tgt g st.1
    if so.1 then
      (so.2, sc.2)
    else
      (so.2 ++ [{ pNode := tgt, pConnection := some conn, gCost := g,
                  fCost := g + getHeuristicCost G h tgt goal }], sc.2)

/-- The whole 2.c loop: fold `processConnection` over the current node's
outgoing connections. -/
def expand (G : Graph) (h : ℚ → ℚ → ℚ) (goal : Nat) (cur : NodeRecord)
    (openL closedL : List NodeRecord) : List NodeRecord × List NodeRecord :=
  List.foldl (processConnection G h goal cur) (openL, closedL)
    (G.connections cur.pNode)

/-- Step 2.g's `std::find` + `erase`: remove the first record equal to `cur`
(the C++ `NodeRecord::operator==` compares all four fields); `none` when no
record is equal, which is exactly when the `assert` fires. -/
def removeRecord (cur : NodeRecord) : List NodeRecord → Option (List NodeRecord)
  | [] => none
  | r :: rs => if r = cur then some rs else (removeRecord cur rs).map (r :: ·)

/-- Outcome of the search `while` loop: the loop exits (by `break` on the
goal, or because the open list emptied) with the final `currentRecord` and
closed list, or the `assert` fires, or the fuel bound was hit. -/
inductive SearchOutcome where
  | done (cur : NodeRecord) (closedL : List NodeRecord)
  | assertFailed
  | outOfFuel
deriving DecidableEq, Repr

/-- The search `while` loop (step 2) of `FindPath`, with fuel bounding the
number of iterations. `cur` is the value of `currentRecord` on entry. -/
def searchLoop (G : Graph) (h : ℚ → ℚ → ℚ) (goal : Nat) :
    Nat → List NodeRecord → List NodeRecord → NodeRecord → SearchOutcome
  | fuel, openL, closedL, cur =>
    match openL with
    | [] => .done cur closedL
    | r0 :: rest =>
      match fuel with
      | 0 => .outOfFuel
      | fuel + 1 =>
        let sel := selectLowest r0 (r0 :: rest)
        if sel.pNode = goal then
          .done sel closedL
        else
          let st := expand G h goal sel (r0 :: rest) closedL
          match removeRecord sel st.1 with
          | none => .assertFailed
          | some openL2 => searchLoop G h goal fuel openL2 (st.2 ++ [sel]) sel

/-- The inner `for` of the reconstruction loop: first closed record whose
node has index `idx` (pointer comparison against `GetNode(idx)`). -/
def findClosed (idx : Nat) : List NodeRecord → Option NodeRecord
  | [] => none
  | r :: rs => if r.pNode = idx then some r else findClosed idx rs

/-- Outcome of the reconstruction loop: the accumulated path, a null
dereference of `pConnection`, or the fuel bound was hit (the loop body does
not change the state when the inner scan misses, so it then spins forever). -/
inductive ReconResult where
  | ok (path : List Nat)
  | nullDeref
  | outOfFuel
deriving DecidableEq, Repr

/-- The reconstruction `while` loop (step 3) of `FindPath`: while the current
record's node is not the start, look up the record of the incoming
connection's source node in the closed list, append its node to `path`
(`push_back`) and continue from it. -/
def reconLoop (start : Nat) :
    Nat → NodeRecord → List NodeRecord → List Nat → ReconResult
  | fuel, cur, closedL, path =>
    if cur.pNode = start then
      .ok path
    else
      match fuel with
      | 0 => .outOfFuel
      | fuel + 1 =>
        match cur.pConnection with
        | none => .nullDeref
        | some c =>
          match findClosed c.getFrom closedL with
          | none => reconLoop start fuel cur closedL path
          | some r => reconLoop start fuel r closedL (path ++ [r.pNode])

/-- The initial record of step 1: the start node, no incoming connection,
g-cost `0` (the field's default), f-cost the heuristic to the goal. -/
def startRecord (G : Graph) (h : ℚ → ℚ → ℚ) (s goal : Nat) : NodeRecord :=
  { pNode := s, pConnection := none, gCost := 0,
    fCost := getHeuristicCost G h s goal }

/-- Result of `FindPath`: the returned node sequence, or one of the
distinguished abnormal outcomes. -/
inductive FindPathResult where
  | path (p : List Nat)
  | assertFailed
  | nullDeref
  | searchOutOfFuel
  | reconOutOfFuel
deriving DecidableEq, Repr

/-- `AStar::FindPath(pStartNode, pGoalNode)`: run the search loop from the
start record, then — unconditionally, as in the source — push the goal node
and run the reconstruction loop from the final `currentRecord`, reversing the
accumulated path at the end. -/
def findPath (G : Graph) (h : ℚ → ℚ → ℚ) (s goal : Nat)
    (searchFuel reconFuel : Nat) : FindPathResult :=
  match searchLoop G h goal searchFuel [startRecord G h s goal] []
      (startRecord G h s goal) with
  | .outOfFuel => .searchOutOfFuel
  | .assertFailed => .assertFailed
  | .done cur closedL =>
    match reconLoop s reconFuel cur closedL [goal] with
    | .outOfFuel => .reconOutOfFuel
    | .nullDeref => .nullDeref
    | .ok p => .path p.reverse

/-! ## State-threaded version of `FindPath`

The `AStar` object (`m_pGraph`, `m_HeuristicFunction`) is the only mutable
state a call could touch; it is threaded explicitly through both loops so
that its preservation is a theorem rather than a typing accident. -/

/-- The `AStar` object: the borrowed graph pointer and the stored heuristic. -/
structure AStarObj where
  m_pGraph : Graph
  m_HeuristicFunction : ℚ → ℚ → ℚ

/-- State-threaded expansion (step 2.c): reads the adjacency list and the
heuristic through the object and yields the object for the sequel. -/
def expandSt (a : AStarObj) (goal : Nat) (cur : NodeRecord)
    (openL closedL : List NodeRecord) :
    (List NodeRecord × List NodeRecord) × AStarObj :=
  (expand a.m_pGraph a.m_HeuristicFunction goal cur openL closedL, a)

/-- State-threaded search loop: each iteration reads through the object it
was handed and hands the returned object to the next iteration. -/
def searchLoopSt (goal : Nat) :
    Nat → AStarObj → List NodeRecord → List NodeRecord → NodeRecord →
      SearchOutcome × AStarObj
  | fuel, a, openL, closedL, cur =>
    match openL with
    | [] => (.done cur closedL, a)
    | r0 :: rest =>
      match fuel with
      | 0 => (.outOfFuel, a)
      | fuel + 1 =>
        let sel := selectLowest r0 (r0 :: rest)
        if sel.pNode = goal then
          (.done sel closedL, a)
        else
          let r := expandSt a goal sel (r0 :: rest) closedL
          match removeRecord sel r.1.1 with
          | none => (.assertFailed, r.2)
          | some openL2 => searchLoopSt goal fuel r.2 openL2 (r.1.2 ++ [sel]) sel

/-- State-threaded reconstruction loop. -/
def reconLoopSt (start : Nat) :
    Nat → AStarObj → NodeRecord → List NodeRecord → List Nat →
      ReconResult × AStarObj
  | fuel, a, cur, closedL, path =>
    if cur.pNode = start then
      (.ok path, a)
    else
      match fuel with
      | 0 => (.outOfFuel, a)
      | fuel + 1 =>
        match cur.pConnection with
        | none => (.nullDeref, a)
        | some c =>
          match findClosed c.getFrom closedL with
          | none => reconLoopSt start fuel a cur closedL path
          | some r => reconLoopSt start fuel a r closedL (path ++ [r.pNode])

/-- State-threaded `FindPath` on an `AStar` object. -/
def findPathSt (a : AStarObj) (s goal : Nat) (searchFuel reconFuel : Nat) :
    FindPathResult × AStarObj :=
  match searchLoopSt goal searchFuel a
      [startRecord a.m_pGraph a.m_HeuristicFunction s goal] []
      (startRecord a.m_pGraph a.m_HeuristicFunction s goal) with
  | (.outOfFuel, a2) => (.searchOutOfFuel, a2)
  | (.assertFailed, a2) => (.assertFailed, a2)
  | (.done cur closedL, a2) =>
    match reconLoopSt s reconFuel a2 cur closedL [goal] with
    | (.outOfFuel, a3) => (.reconOutOfFuel, a3)
    | (.nullDeref, a3) => (.nullDeref, a3)
    | (.ok p, a3) => (.path p.reverse, a3)

/-! ## Concrete instances -/

/-- The zero heuristic of the spec's concrete scenario (A* degenerates to
Dijkstra). -/
def zeroHeuristic : ℚ → ℚ → ℚ := fun _ _ => 0

/-- The spec §8 4-node graph: nodes A=0, B=1, C=2, D=3 with connections
A→B(1), A→C(4), B→C(1), B→D(5), C→D(1). -/
def demoGraph : Graph :=
  { conns := [⟨0, 1, 1⟩, ⟨0, 2, 4⟩, ⟨1, 2, 1⟩, ⟨1, 3, 5⟩, ⟨2, 3, 1⟩],
    pos := fun _ => (0, 0) }

/-- A graph with two components: 0 → 1, and node 2 isolated. -/
def noPathGraph : Graph := { conns := [⟨0, 1, 1⟩], pos := fun _ => (0, 0) }

/-- A heuristic that returns the absolute x-displacement. -/
def dxHeuristic : ℚ → ℚ → ℚ := fun a _ => a

/-- Reopening scenario: S=0, X=1, A=2, B=3, G=4 with connections S→X(4),
S→A(1), X→G(10), A→B(1), B→X(1); node positions make `dxHeuristic` rank X
before A (h(X)=h(G)=0, h(A)=h(B)=10, h(S)=5). X is expanded early, then the
cheaper route S→A→B→X erases X's closed record. -/
def reopenGraph : Graph :=
  { conns := [⟨0, 1, 4⟩, ⟨0, 2, 1⟩, ⟨1, 4, 10⟩, ⟨2, 3, 1⟩, ⟨3, 1, 1⟩],
    pos := fun n =>
      match n with
      | 0 => (5, 0)
      | 1 => (0, 1)
      | 2 => (10, 2)
      | 3 => (10, 3)
      | _ => (0, 0) }

/-! ## The directed-edge relation and record well-formedness -/

/-- `IsConn G u v`: the graph has a stored connection with source `u` and
destination `v`. -/
def IsConn (G : Graph) (u v : Nat) : Prop :=
  ∃ c ∈ G.connections u, c.getTo = v

instance (G : Graph) (u v : Nat) : Decidable (IsConn G u v) := by
  unfold IsConn; infer_instance

/-- Any connection returned by the adjacency query has the queried source. -/
lemma connections_getFrom {G : Graph} {n : Nat} {c : Connection}
    (hc : c ∈ G.connections n) : c.getFrom = n := by
  have := (List.mem_filter.mp hc).2
  simpa using this

/-- Well-formedness of a search record relative to graph `G` and start `s`:
the start record has no incoming connection, and every other record's
incoming connection is a stored connection ending at the record's node. -/
def RecordOK (G : Graph) (s : Nat) (r : NodeRecord) : Prop :=
  (r.pConnection = none → r.pNode = s) ∧
  ∀ c, r.pConnection = some c →
    c ∈ G.connections c.getFrom ∧ c.getTo = r.pNode

/-! ## Selection lemmas (step 2.a) -/

/-- Full characterisation of the 2.a scan: the result's f-cost is at most the
initial candidate's and at most every scanned record's, and the result is
either the initial candidate or a scanned record that strictly beats the
candidate and every record scanned before it. -/
lemma selectLowest_spec (l : List NodeRecord) : ∀ cur : NodeRecord,
    (selectLowest cur l).fCost ≤ cur.fCost ∧
    (∀ r ∈ l, (selectLowest cur l).fCost ≤ r.fCost) ∧
    (selectLowest cur l = cur ∨
      ∃ i, ∃ hi : i < l.length, selectLowest cur l = l.get ⟨i, hi⟩ ∧
        (selectLowest cur l).fCost < cur.fCost ∧
        ∀ r ∈ l.take i, (selectLowest cur l).fCost < r.fCost) := by
  induction l with
  | nil => exact fun cur => ⟨le_refl _, by simp, Or.inl rfl⟩
  | cons r rs ih =>
    intro cur
    by_cases hlt : r.fCost < cur.fCost
    · have h3 := ih r
      simp only [selectLowest, if_pos hlt]
      refine ⟨h3.1.trans hlt.le, ?_, ?_⟩
      · intro x hx
        rcases List.mem_cons.mp hx with rfl | hx
        · exact h3.1
        · exact h3.2.1 x hx
      · rcases h3.2.2 with heq | ⟨i, hi, heq, hlt2, hstrict⟩
        · right
          refine ⟨0, by simp, by simpa using heq, ?_, by simp⟩
          rw [heq]; exact hlt
        · right
          refine ⟨i + 1, by simpa using hi, by simpa using heq,
            hlt2.trans hlt, ?_⟩
          intro x hx
          rw [List.take_succ_cons] at hx
          rcases List.mem_cons.mp hx with rfl | hx2
          · exact hlt2
          · exact hstrict x hx2
    · have h3 := ih cur
      simp only [selectLowest, if_neg hlt]
      refine ⟨h3.1, ?_, ?_⟩
      · intro x hx
        rcases List.mem_cons.mp hx with rfl | hx
        · exact h3.1.trans (not_lt.mp hlt)
        · exact h3.2.1 x hx
      · rcases h3.2.2 with heq | ⟨i, hi, heq, hlt2, hstrict⟩
        · exact Or.inl heq
        · right
          refine ⟨i + 1, by simpa using hi, by simpa using heq, hlt2, ?_⟩
          intro x hx
          rw [List.take_succ_cons] at hx
          rcases List.mem_cons.mp hx with rfl | hx2
          · exact lt_of_lt_of_le hlt2 (not_lt.mp hlt)
          · exact hstrict x hx2

/-- The selected record is the initial candidate or a scanned record. -/
lemma selectLowest_mem (l : List NodeRecord) (cur : NodeRecord) :
    selectLowest cur l = cur ∨ selectLowest cur l ∈ l := by
  rcases (selectLowest_spec l cur).2.2 with h | ⟨i, hi, heq, _, _⟩
  · exact Or.inl h
  · exact Or.inr (heq ▸ List.get_mem l i hi)

/-! ## The step-2.g `assert` (claim C10) -/

/-- The 2.e scan can only erase a record whose `gCost` strictly exceeds the
candidate cost, so a record with `gCost ≤ g` survives it. -/
lemma scanOpen_mem {tgt : Nat} {g : ℚ} {l : List NodeRecord} {x : NodeRecord}
    (hx : x ∈ l) (hg : x.gCost ≤ g) : x ∈ (scanOpen tgt g l).2 := by
  induction l with
  | nil => simp at hx
  | cons r rs ih =>
    rcases List.mem_cons.mp hx with rfl | hmem
    · by_cases hp : x.pNode = tgt
      · simp [scanOpen, hp, not_lt.mpr hg]
      · simp [scanOpen, hp]
    · by_cases hp : r.pNode = tgt
      · by_cases hgr : g < r.gCost
        · simpa [scanOpen, hp, hgr] using hmem
        · simp [scanOpen, hp, hgr]
          exact Or.inr hmem
      · simp [scanOpen, hp]
        exact Or.inr (ih hmem)

/-- Processing one connection of `cur` keeps every open record whose `gCost`
is at most the candidate cost — in particular `cur` itself when the
connection's cost is non-negative. -/
lemma processConnection_mem {G : Graph} {h : ℚ → ℚ → ℚ} {goal : Nat}
    {cur : NodeRecord} {st : List NodeRecord × List NodeRecord}
    {conn : Connection} {x : NodeRecord}
    (hx : x ∈ st.1) (hg : x.gCost ≤ conn.cost + cur.gCost) :
    x ∈ (processConnection G h goal cur st conn).1 := by
  unfold processConnection
  by_cases hc : (scanClosed conn.getTo (conn.cost + cur.gCost) st.2).1
  · simpa [hc] using hx
  · by_cases ho : (scanOpen conn.getTo (conn.cost + cur.gCost) st.1).1
    · simpa [hc, ho] using scanOpen_mem hx hg
    · simp [hc, ho]
      exact Or.inl (scanOpen_mem hx hg)

/-- The whole 2.c loop keeps `cur` in the open list when every processed
connection has non-negative cost. -/
lemma foldl_process_mem {G : Graph} {h : ℚ → ℚ → ℚ} {goal : Nat}
    {cur : NodeRecord} :
    ∀ (cl : List Connection) (st : List NodeRecord × List NodeRecord),
      (∀ c ∈ cl, 0 ≤ c.cost) → cur ∈ st.1 →
      cur ∈ (List.foldl (processConnection G h goal cur) st cl).1 := by
  intro cl
  induction cl with
  | nil => intro st _ hcur; simpa using hcur
  | cons c cs ih =>
    intro st hc hcur
    rw [List.foldl_cons]
    refine ih _ (fun d hd => hc d (List.mem_cons_of_mem _ hd)) ?_
    exact processConnection_mem hcur
      (le_add_of_nonneg_left (hc c (List.mem_cons_self _ _)))

/-- `std::find` over the open list succeeds for any member. -/
lemma removeRecord_of_mem {x : NodeRecord} {l : List NodeRecord} (hx : x ∈ l) :
    ∃ l2, removeRecord x l = some l2 := by
  induction l with
  | nil => simp at hx
  | cons r rs ih =>
    by_cases h : r = x
    · exact ⟨rs, by simp [removeRecord, h]⟩
    · rcases List.mem_cons.mp hx with rfl | hmem
      · exact absurd rfl h
      · obtain ⟨l2, hl2⟩ := ih hmem
        exact ⟨r :: l2, by simp [removeRecord, h, hl2]⟩

/-- On a graph whose stored connections all have non-negative cost, the
search loop never reaches the `assert` failure: the record selected for
expansion is still in the open list after its own expansion. -/
lemma searchLoop_no_assert (G : Graph) (h : ℚ → ℚ → ℚ) (goal : Nat)
    (hc : ∀ c ∈ G.conns, 0 ≤ c.cost) :
    ∀ (fuel : Nat) (openL closedL : List NodeRecord) (cur : NodeRecord),
      searchLoop G h goal fuel openL closedL cur ≠ SearchOutcome.assertFailed := by
  intro fuel
  induction fuel with
  | zero => intro openL closedL cur; cases openL <;> simp [searchLoop]
  | succ f ih =>
    intro openL closedL cur
    cases openL with
    | nil => simp [searchLoop]
    | cons r0 rest =>
      by_cases hgoal : (selectLowest r0 (r0 :: rest)).pNode = goal
      · simp [searchLoop, hgoal]
      · have hmem : selectLowest r0 (r0 :: rest) ∈ r0 :: rest := by
          rcases selectLowest_mem (r0 :: rest) r0 with h1 | h1
          · rw [h1]; exact List.mem_cons_self _ _
          · exact h1
        have hin : selectLowest r0 (r0 :: rest) ∈
            (expand G h goal (selectLowest r0 (r0 :: rest)) (r0 :: rest) closedL).1 := by
          refine foldl_process_mem _ _ ?_ hmem
          intro c hc2
          exact hc c (List.mem_of_mem_filter hc2)
        obtain ⟨l2, hl2⟩ := removeRecord_of_mem hin
        simpa [searchLoop, hgoal, hl2] using ih l2 _ _

/-! ## Record well-formedness is invariant (towards claim C6) -/

/-- The closed scan only ever erases records. -/
lemma scanClosed_sub {tgt : Nat} {g : ℚ} :
    ∀ {l : List NodeRecord} {x : NodeRecord},
      x ∈ (scanClosed tgt g l).2 → x ∈ l := by
  intro l
  induction l with
  | nil => intro x hx; simp [scanClosed] at hx
  | cons r rs ih =>
    intro x hx
    by_cases hp : r.pNode = tgt
    · by_cases hgr : g < r.gCost
      · simp only [scanClosed, if_pos hp, if_pos hgr] at hx
        exact List.mem_cons_of_mem _ hx
      · simp only [scanClosed, if_pos hp, if_neg hgr] at hx
        rcases List.mem_cons.mp hx with rfl | hx2
        · exact List.mem_cons_self _ _
        · exact List.mem_cons_of_mem _ (ih hx2)
    · simp only [scanClosed, if_neg hp] at hx
      rcases List.mem_cons.mp hx with rfl | hx2
      · exact List.mem_cons_self _ _
      · exact List.mem_cons_of_mem _ (ih hx2)

/-- The open scan only ever erases records. -/
lemma scanOpen_sub {tgt : Nat} {g : ℚ} :
    ∀ {l : List NodeRecord} {x : NodeRecord},
      x ∈ (scanOpen tgt g l).2 → x ∈ l := by
  intro l
  induction l with
  | nil => intro x hx; simp [scanOpen] at hx
  | cons r rs ih =>
    intro x hx
    by_cases hp : r.pNode = tgt
    · by_cases hgr : g < r.gCost
      · simp only [scanOpen, if_pos hp, if_pos hgr] at hx
        exact List.mem_cons_of_mem _ hx
      · simpa only [scanOpen, if_pos hp, if_neg hgr] using hx
    · simp only [scanOpen, if_neg hp] at hx
      rcases List.mem_cons.mp hx with rfl | hx2
      · exact List.mem_cons_self _ _
      · exact List.mem_cons_of_mem _ (ih hx2)

/-- Processing one connection of `cur` preserves `RecordOK` on both lists,
provided the connection really is an outgoing connection of `cur`'s node. -/
lemma processConnection_ok {G : Graph} {h : ℚ → ℚ → ℚ} {goal s : Nat}
    {cur : NodeRecord} {st : List NodeRecord × List NodeRecord}
    {conn : Connection} (hconn : conn ∈ G.connections cur.pNode)
    (h1 : ∀ r ∈ st.1, RecordOK G s r) (h2 : ∀ r ∈ st.2, RecordOK G s r) :
    (∀ r ∈ (processConnection G h goal cur st conn).1, RecordOK G s r) ∧
    (∀ r ∈ (processConnection G h goal cur st conn).2, RecordOK G s r) := by
  have hfrom : conn.getFrom = cur.pNode := connections_getFrom hconn
  unfold processConnection
  by_cases hc : (scanClosed conn.getTo (conn.cost + cur.gCost) st.2).1
  · refine ⟨by simpa [hc] using h1, ?_⟩
    intro r hr
    simp only [hc, if_true] at hr
    exact h2 r (scanClosed_sub hr)
  · by_cases ho : (scanOpen conn.getTo (conn.cost + cur.gCost) st.1).1
    · constructor
      · intro r hr
        simp only [hc, ho, if_false, if_true] at hr
        exact h1 r (scanOpen_sub hr)
      · intro r hr
        simp only [hc, ho, if_false, if_true] at hr
        exact h2 r (scanClosed_sub hr)
    · constructor
      · intro r hr
        simp only [hc, ho, if_false] at hr
        rcases List.mem_append.mp hr with hr2 | hr2
        · exact h1 r (scanOpen_sub hr2)
        · rcases List.mem_singleton.mp hr2 with rfl
          refine ⟨by simp, ?_⟩
          intro c hcc
          simp only [Option.some.injEq] at hcc
          subst hcc
          exact ⟨by rwa [hfrom], rfl⟩
      · intro r hr
        simp only [hc, ho, if_false] at hr
        exact h2 r (scanClosed_sub hr)

/-- The whole 2.c loop preserves `RecordOK` on both lists. -/
lemma foldl_process_ok {G : Graph} {h : ℚ → ℚ → ℚ} {goal s : Nat}
    {cur : NodeRecord} :
    ∀ (cl : List Connection) (st : List NodeRecord × List NodeRecord),
      (∀ c ∈ cl, c ∈ G.connections cur.pNode) →
      (∀ r ∈ st.1, RecordOK G s r) → (∀ r ∈ st.2, RecordOK G s r) →
      (∀ r ∈ (List.foldl (processConnection G h goal cur) st cl).1, RecordOK G s r) ∧
      (∀ r ∈ (List.foldl (processConnection G h goal cur) st cl).2, RecordOK G s r) := by
  intro cl
  induction cl with
  | nil => intro st _ h1 h2; exact ⟨h1, h2⟩
  | cons c cs ih =>
    intro st hcl h1 h2
    rw [List.foldl_cons]
    have hok := @processConnection_ok G h goal s cur st c
      (hcl c (List.mem_cons_self _ _)) h1 h2
    exact ih _ (fun d hd => hcl d (List.mem_cons_of_mem _ hd)) hok.1 hok.2

/-- Step 2.g's erase only removes a record. -/
lemma removeRecord_sub {x : NodeRecord} :
    ∀ {l l2 : List NodeRecord}, removeRecord x l = some l2 →
      ∀ r ∈ l2, r ∈ l := by
  intro l
  induction l with
  | nil => intro l2 h; simp [removeRecord] at h
  | cons r rs ih =>
    intro l2 h
    by_cases hr : r = x
    · simp only [removeRecord, if_pos hr, Option.some.injEq] at h
      subst h
      exact fun t ht => List.mem_cons_of_mem _ ht
    · simp only [removeRecord, if_neg hr] at h
      cases hrem : removeRecord x rs with
      | none => rw [hrem] at h; simp at h
      | some rs2 =>
        rw [hrem] at h
        simp only [Option.map_some', Option.some.injEq] at h
        subst h
        intro t ht
        rcases List.mem_cons.mp ht with rfl | ht2
        · exact List.mem_cons_self _ _
        · exact List.mem_cons_of_mem _ (ih hrem t ht2)

/-- Through any run of the search loop, the final `currentRecord` and every
closed record remain well-formed. -/
lemma searchLoop_ok {G : Graph} {h : ℚ → ℚ → ℚ} {goal s : Nat} :
    ∀ (fuel : Nat) (openL closedL : List NodeRecord) (cur cur2 : NodeRecord)
      (closed2 : List NodeRecord),
      (∀ r ∈ openL, RecordOK G s r) → (∀ r ∈ closedL, RecordOK G s r) →
      RecordOK G s cur →
      searchLoop G h goal fuel openL closedL cur = SearchOutcome.done cur2 closed2 →
      RecordOK G s cur2 ∧ ∀ r ∈ closed2, RecordOK G s r := by
  intro fuel
  induction fuel with
  | zero =>
    intro openL closedL cur cur2 closed2 h1 h2 hcur heq
    cases openL with
    | nil =>
      simp only [searchLoop, SearchOutcome.done.injEq] at heq
      exact heq.1 ▸ heq.2 ▸ ⟨hcur, h2⟩
    | cons r0 rest => simp [searchLoop] at heq
  | succ f ih =>
    intro openL closedL cur cur2 closed2 h1 h2 hcur heq
    cases openL with
    | nil =>
      simp only [searchLoop, SearchOutcome.done.injEq] at heq
      exact heq.1 ▸ heq.2 ▸ ⟨hcur, h2⟩
    | cons r0 rest =>
      have hselok : RecordOK G s (selectLowest r0 (r0 :: rest)) := by
        rcases selectLowest_mem (r0 :: rest) r0 with hm | hm
        · rw [hm]; exact h1 r0 (List.mem_cons_self _ _)
        · exact h1 _ hm
      by_cases hgoal : (selectLowest r0 (r0 :: rest)).pNode = goal
      · simp only [searchLoop, hgoal, if_true, SearchOutcome.done.injEq] at heq
        exact heq.1 ▸ heq.2 ▸ ⟨hselok, h2⟩
      · have hexp := @foldl_process_ok G h goal s (selectLowest r0 (r0 :: rest))
          (G.connections (selectLowest r0 (r0 :: rest)).pNode)
          ((r0 :: rest), closedL) (fun c hc => hc) h1 h2
        simp only [searchLoop, hgoal, if_false] at heq
        cases hrem : removeRecord (selectLowest r0 (r0 :: rest))
            (expand G h goal (selectLowest r0 (r0 :: rest)) (r0 :: rest) closedL).1 with
        | none => rw [hrem] at heq; simp at heq
        | some l2 =>
          rw [hrem] at heq
          refine ih l2 _ _ cur2 closed2 ?_ ?_ hselok heq
          · exact fun r hr => hexp.1 r (removeRecord_sub hrem r hr)
          · intro r hr
            rcases List.mem_append.mp hr with hr2 | hr2
            · exact hexp.2 r hr2
            · rcases List.mem_singleton.mp hr2 with rfl
              exact hselok

/-! ## Reconstruction produces graph edges (towards claim C6) -/

/-- The reconstruction scan returns a closed record of the requested node. -/
lemma findClosed_spec {idx : Nat} :
    ∀ {l : List NodeRecord} {r : NodeRecord},
      findClosed idx l = some r → r ∈ l ∧ r.pNode = idx := by
  intro l
  induction l with
  | nil => intro r h; simp [findClosed] at h
  | cons x xs ih =>
    intro r h
    by_cases hp : x.pNode = idx
    · simp only [findClosed, if_pos hp, Option.some.injEq] at h
      exact ⟨h ▸ List.mem_cons_self _ _, h ▸ hp⟩
    · simp only [findClosed, if_neg hp] at h
      obtain ⟨hm, he⟩ := ih h
      exact ⟨List.mem_cons_of_mem _ hm, he⟩

/-- Exit equation of the reconstruction loop: the `while` condition fails. -/
lemma reconLoop_exit {s : Nat} {cur : NodeRecord} (hs : cur.pNode = s)
    (f : Nat) (closedL : List NodeRecord) (path : List Nat) :
    reconLoop s f cur closedL path = ReconResult.ok path := by
  rw [reconLoop.eq_def]
  simp [hs]

/-- Zero-fuel equation of the reconstruction loop with the condition true. -/
lemma reconLoop_zero {s : Nat} {cur : NodeRecord} (hs : cur.pNode ≠ s)
    (closedL : List NodeRecord) (path : List Nat) :
    reconLoop s 0 cur closedL path = ReconResult.outOfFuel := by
  rw [reconLoop.eq_def]
  simp [hs]

/-- Step equation: the inner scan misses, so the loop body changes nothing. -/
lemma reconLoop_succ_stuck {s : Nat} {cur : NodeRecord} {c : Connection}
    {closedL : List NodeRecord} (hs : cur.pNode ≠ s)
    (hconn : cur.pConnection = some c)
    (hfind : findClosed c.getFrom closedL = none)
    (f : Nat) (path : List Nat) :
    reconLoop s (f + 1) cur closedL path = reconLoop s f cur closedL path := by
  conv_lhs => rw [reconLoop.eq_def]
  simp [hs, hconn, hfind]

/-- Step equation: the inner scan finds the predecessor record `r`; its node
is pushed and the loop continues from `r`. -/
lemma reconLoop_succ_found {s : Nat} {cur r : NodeRecord} {c : Connection}
    {closedL : List NodeRecord} (hs : cur.pNode ≠ s)
    (hconn : cur.pConnection = some c)
    (hfind : findClosed c.getFrom closedL = some r)
    (f : Nat) (path : List Nat) :
    reconLoop s (f + 1) cur closedL path
      = reconLoop s f r closedL (path ++ [r.pNode]) := by
  conv_lhs => rw [reconLoop.eq_def]
  simp [hs, hconn, hfind]

/-- Step equation: null incoming connection away from the start. -/
lemma reconLoop_succ_null {s : Nat} {cur : NodeRecord} (hs : cur.pNode ≠ s)
    (hconn : cur.pConnection = none) (f : Nat)
    (closedL : List NodeRecord) (path : List Nat) :
    reconLoop s (f + 1) cur closedL path = ReconResult.nullDeref := by
  rw [reconLoop.eq_def]
  simp [hs, hconn]

/-- If the reconstruction loop starts from a well-formed record whose node is
the last pushed node, every node it pushes is joined to its predecessor in
push order by a stored connection; so the accumulated path is an edge chain
(in reverse direction). -/
lemma reconLoop_chain {G : Graph} {s : Nat} :
    ∀ (fuel : Nat) (cur : NodeRecord) (closedL : List NodeRecord)
      (path p : List Nat),
      RecordOK G s cur → (∀ r ∈ closedL, RecordOK G s r) →
      path.getLast? = some cur.pNode →
      List.Chain' (fun a b => IsConn G b a) path →
      reconLoop s fuel cur closedL path = ReconResult.ok p →
      List.Chain' (fun a b => IsConn G b a) p := by
  intro fuel
  induction fuel with
  | zero =>
    intro cur closedL path p _ _ _ hchain heq
    by_cases hs : cur.pNode = s
    · rw [reconLoop_exit hs] at heq
      cases heq
      exact hchain
    · rw [reconLoop_zero hs] at heq
      cases heq
  | succ f ih =>
    intro cur closedL path p hcur hclosed hlast hchain heq
    by_cases hs : cur.pNode = s
    · rw [reconLoop_exit hs] at heq
      cases heq
      exact hchain
    · cases hconn : cur.pConnection with
      | none =>
        rw [reconLoop_succ_null hs hconn] at heq
        cases heq
      | some c =>
        obtain ⟨hcmem, hcto⟩ := hcur.2 c hconn
        cases hfind : findClosed c.getFrom closedL with
        | none =>
          rw [reconLoop_succ_stuck hs hconn hfind] at heq
          exact ih cur closedL path p hcur hclosed hlast hchain heq
        | some r =>
          rw [reconLoop_succ_found hs hconn hfind] at heq
          obtain ⟨hrmem, hrnode⟩ := findClosed_spec hfind
          refine ih r closedL (path ++ [r.pNode]) p (hclosed r hrmem) hclosed
            (by simp) ?_ heq
          rw [List.chain'_append]
          refine ⟨hchain, List.chain'_singleton _, ?_⟩
          intro x hx y hy
          rw [hlast, Option.mem_def, Option.some.injEq] at hx
          simp only [List.head?_cons, Option.mem_def, Option.some.injEq] at hy
          subst hx; subst hy
          exact ⟨c, by rwa [hrnode], hcto⟩

/-! ## Step equations and fuel monotonicity of the search loop -/

/-- Exit equation: empty open list. -/
lemma searchLoop_nil (G : Graph) (h : ℚ → ℚ → ℚ) (goal fuel : Nat)
    (closedL : List NodeRecord) (cur : NodeRecord) :
    searchLoop G h goal fuel [] closedL cur = SearchOutcome.done cur closedL := by
  rw [searchLoop.eq_def]

/-- Zero-fuel equation with a non-empty open list. -/
lemma searchLoop_cons_zero (G : Graph) (h : ℚ → ℚ → ℚ) (goal : Nat)
    (r0 : NodeRecord) (rest closedL : List NodeRecord) (cur : NodeRecord) :
    searchLoop G h goal 0 (r0 :: rest) closedL cur = SearchOutcome.outOfFuel := by
  rw [searchLoop.eq_def]

/-- Break equation: the selected record is the goal. -/
lemma searchLoop_cons_goal {G : Graph} {h : ℚ → ℚ → ℚ} {goal : Nat}
    {r0 : NodeRecord} {rest : List NodeRecord}
    (hgoal : (selectLowest r0 (r0 :: rest)).pNode = goal)
    (f : Nat) (closedL : List NodeRecord) (cur : NodeRecord) :
    searchLoop G h goal (f + 1) (r0 :: rest) closedL cur
      = SearchOutcome.done (selectLowest r0 (r0 :: rest)) closedL := by
  rw [searchLoop.eq_def]
  simp [hgoal]

/-- Assert equation: the selected record vanished from the open list. -/
lemma searchLoop_cons_assert {G : Graph} {h : ℚ → ℚ → ℚ} {goal : Nat}
    {r0 : NodeRecord} {rest closedL : List NodeRecord}
    (hgoal : ¬ (selectLowest r0 (r0 :: rest)).pNode = goal)
    (hrem : removeRecord (selectLowest r0 (r0 :: rest))
        (expand G h goal (selectLowest r0 (r0 :: rest)) (r0 :: rest) closedL).1
      = none)
    (f : Nat) (cur : NodeRecord) :
    searchLoop G h goal (f + 1) (r0 :: rest) closedL cur
      = SearchOutcome.assertFailed := by
  rw [searchLoop.eq_def]
  simp [hgoal, hrem]

/-- Iteration equation: expand the selected record, move it from open to
closed, and continue. -/
lemma searchLoop_cons_step {G : Graph} {h : ℚ → ℚ → ℚ} {goal : Nat}
    {r0 : NodeRecord} {rest closedL : List NodeRecord} {openL2 : List NodeRecord}
    (hgoal : ¬ (selectLowest r0 (r0 :: rest)).pNode = goal)
    (hrem : removeRecord (selectLowest r0 (r0 :: rest))
        (expand G h goal (selectLowest r0 (r0 :: rest)) (r0 :: rest) closedL).1
      = some openL2)
    (f : Nat) (cur : NodeRecord) :
    searchLoop G h goal (f + 1) (r0 :: rest) closedL cur
      = searchLoop G h goal f openL2
          ((expand G h goal (selectLowest r0 (r0 :: rest)) (r0 :: rest) closedL).2
            ++ [selectLowest r0 (r0 :: rest)])
          (selectLowest r0 (r0 :: rest)) := by
  conv_lhs => rw [searchLoop.eq_def]
  simp [hgoal, hrem]

/-- A search-loop run that does not hit the fuel bound is unchanged by giving
it more fuel. -/
lemma searchLoop_mono (G : Graph) (h : ℚ → ℚ → ℚ) (goal : Nat) :
    ∀ (f f' : Nat), f ≤ f' →
      ∀ (openL closedL : List NodeRecord) (cur : NodeRecord),
        searchLoop G h goal f openL closedL cur ≠ SearchOutcome.outOfFuel →
        searchLoop G h goal f' openL closedL cur
          = searchLoop G h goal f openL closedL cur := by
  intro f
  induction f with
  | zero =>
    intro f' _ openL closedL cur hne
    cases openL with
    | nil => rw [searchLoop_nil, searchLoop_nil]
    | cons r0 rest => exact absurd (searchLoop_cons_zero G h goal r0 rest closedL cur) hne
  | succ f ih =>
    intro f' hf openL closedL cur hne
    cases openL with
    | nil => rw [searchLoop_nil, searchLoop_nil]
    | cons r0 rest =>
      obtain ⟨f2, rfl⟩ : ∃ f2, f' = f2 + 1 := ⟨f' - 1, by omega⟩
      by_cases hgoal : (selectLowest r0 (r0 :: rest)).pNode = goal
      · rw [searchLoop_cons_goal hgoal, searchLoop_cons_goal hgoal]
      · cases hrem : removeRecord (selectLowest r0 (r0 :: rest))
            (expand G h goal (selectLowest r0 (r0 :: rest)) (r0 :: rest) closedL).1 with
        | none =>
          rw [searchLoop_cons_assert hgoal hrem, searchLoop_cons_assert hgoal hrem]
        | some l2 =>
          rw [searchLoop_cons_step hgoal hrem] at hne ⊢
          rw [searchLoop_cons_step hgoal hrem]
          exact ih f2 (by omega) _ _ _ hne

/-- A stuck reconstruction state (current node is not the start and its
predecessor has no closed record) loops forever: every fuel bound is hit. -/
lemma reconLoop_stuck {s : Nat} {cur : NodeRecord} {c : Connection}
    {closedL : List NodeRecord} (hs : cur.pNode ≠ s)
    (hconn : cur.pConnection = some c)
    (hfind : findClosed c.getFrom closedL = none) (path : List Nat) :
    ∀ fuel, reconLoop s fuel cur closedL path = ReconResult.outOfFuel := by
  intro fuel
  induction fuel with
  | zero => exact reconLoop_zero hs closedL path
  | succ f ih => rw [reconLoop_succ_stuck hs hconn hfind, ih]

/-! ## The state-threaded run returns the object unchanged (claim C9) -/

/-- The state-threaded search loop computes the pure search loop and hands
back the `AStar` object it was given. -/
lemma searchLoopSt_eq (goal : Nat) :
    ∀ (fuel : Nat) (a : AStarObj) (openL closedL : List NodeRecord)
      (cur : NodeRecord),
      searchLoopSt goal fuel a openL closedL cur
        = (searchLoop a.m_pGraph a.m_HeuristicFunction goal fuel openL closedL cur,
           a) := by
  intro fuel
  induction fuel with
  | zero =>
    intro a openL closedL cur
    cases openL with
    | nil => rw [searchLoopSt.eq_def, searchLoop.eq_def]
    | cons r0 rest => rw [searchLoopSt.eq_def, searchLoop.eq_def]
  | succ f ih =>
    intro a openL closedL cur
    cases openL with
    | nil => rw [searchLoopSt.eq_def, searchLoop.eq_def]
    | cons r0 rest =>
      rw [searchLoopSt.eq_def, searchLoop.eq_def]
      by_cases hgoal : (selectLowest r0 (r0 :: rest)).pNode = goal
      · simp [hgoal]
      · simp only [hgoal, if_false]
        cases hrem : removeRecord (selectLowest r0 (r0 :: rest))
            (expand a.m_pGraph a.m_HeuristicFunction goal
              (selectLowest r0 (r0 :: rest)) (r0 :: rest) closedL).1 with
        | none => simp [expandSt, hrem]
        | some l2 => simp [expandSt, hrem, ih]

/-- The state-threaded reconstruction loop computes the pure one and hands
back the `AStar` object it was given. -/
lemma reconLoopSt_eq (s : Nat) :
    ∀ (fuel : Nat) (a : AStarObj) (cur : NodeRecord)
      (closedL : List NodeRecord) (path : List Nat),
      reconLoopSt s fuel a cur closedL path
        = (reconLoop s fuel cur closedL path, a) := by
  intro fuel
  induction fuel with
  | zero =>
    intro a cur closedL path
    by_cases hs : cur.pNode = s
    · rw [reconLoopSt.eq_def, reconLoop.eq_def]
      simp [hs]
    · rw [reconLoopSt.eq_def, reconLoop.eq_def]
      simp [hs]
  | succ f ih =>
    intro a cur closedL path
    by_cases hs : cur.pNode = s
    · rw [reconLoopSt.eq_def, reconLoop.eq_def]
      simp [hs]
    · rw [reconLoopSt.eq_def, reconLoop.eq_def]
      simp only [hs, if_false]
      cases hconn : cur.pConnection with
      | none => simp
      | some c =>
        simp only []
        cases hfind : findClosed c.getFrom closedL with
        | none => simp [hfind, ih]
        | some r => simp [hfind, ih]

/-- `findPathSt` computes `findPath` and returns the `AStar` object (graph
pointer and heuristic) exactly as it was. -/
lemma findPathSt_eq (a : AStarObj) (s goal f1 f2 : Nat) :
    findPathSt a s goal f1 f2
      = (findPath a.m_pGraph a.m_HeuristicFunction s goal f1 f2, a) := by
  unfold findPathSt findPath
  rw [searchLoopSt_eq]
  cases searchLoop a.m_pGraph a.m_HeuristicFunction goal f1
      [startRecord a.m_pGraph a.m_HeuristicFunction s goal] []
      (startRecord a.m_pGraph a.m_HeuristicFunction s goal) with
  | outOfFuel => rfl
  | assertFailed => rfl
  | done cur closedL =>
    simp only [reconLoopSt_eq]
    cases reconLoop s f2 cur closedL [goal] <;> rfl

/-! ## Claim theorems -/

/-- C1: on the spec §8 four-node graph A=0, B=1, C=2, D=3 with the zero
heuristic, `FindPath(A, D)` does **not** return A,B,C,D (cost 3): when the
cheaper route to C (g-cost 2) is found, the code erases C's stale open
record (g-cost 4) and then skips the connection without inserting the
improved record, so C is lost and the returned sequence is A,B,D (cost 6). -/
theorem c1_demo_run :
    findPath demoGraph zeroHeuristic 0 3 10 10 = FindPathResult.path [0, 1, 3] ∧
    FindPathResult.path [0, 1, 3] ≠ FindPathResult.path [0, 1, 2, 3] := by
  decide

/-- C2: an expansion step in which the target (node 2) has an open record
with `costSoFar` 4 strictly above the candidate g-cost 2: the stale open
record is erased, but the connection is then skipped — no new record with
the candidate g-cost is inserted, so the resulting open list is empty,
contrary to the claimed re-insertion. -/
theorem c2_stale_open_not_replaced :
    processConnection demoGraph zeroHeuristic 3 ⟨1, some ⟨0, 1, 1⟩, 1, 1⟩
        ([⟨2, some ⟨0, 2, 4⟩, 4, 4⟩], []) ⟨1, 2, 1⟩
      = ([], []) := by
  decide

/-- C3: an expansion step in which the target (node 1) has a closed record
with `costSoFar` 4 strictly above the candidate g-cost 3: the stale closed
record is erased, but the connection is then skipped — the open list is
returned unchanged, so the node is dropped instead of being reopened,
contrary to the claimed reconsideration. -/
theorem c3_stale_closed_not_reopened :
    processConnection reopenGraph dxHeuristic 4 ⟨3, some ⟨2, 3, 1⟩, 2, 12⟩
        ([⟨4, some ⟨1, 4, 10⟩, 14, 14⟩],
         [⟨0, none, 0, 5⟩, ⟨1, some ⟨0, 1, 4⟩, 4, 4⟩, ⟨2, some ⟨0, 2, 1⟩, 1, 11⟩])
        ⟨3, 1, 1⟩
      = ([⟨4, some ⟨1, 4, 10⟩, 14, 14⟩],
         [⟨0, none, 0, 5⟩, ⟨2, some ⟨0, 2, 1⟩, 1, 11⟩]) := by
  decide

/-- C4: on a graph where the goal (node 2) is unreachable from the start
(node 0, whose only connection goes to node 1), `FindPath` exhausts the open
set and then still runs the reconstruction from the last expanded record,
returning the ordinary sequence [0, 2] — not a distinguished failure/empty
result. -/
theorem c4_no_path_returns_ordinary_path :
    findPath noPathGraph zeroHeuristic 0 2 10 10 = FindPathResult.path [0, 2] := by
  decide

/-- C5: `FindPath` does not always terminate on a finite graph with
non-negative costs: on `reopenGraph` (all costs ≥ 0) the search loop ends
after five iterations with the goal record whose predecessor X (node 1) was
erased from the closed set, so the reconstruction loop's inner scan misses
forever and every reconstruction fuel bound is hit. -/
theorem c5_reconstruction_never_terminates (f1 f2 : Nat) :
    findPath reopenGraph dxHeuristic 0 4 (f1 + 5) f2
      = FindPathResult.reconOutOfFuel := by
  have h5 : searchLoop reopenGraph dxHeuristic 4 5
      [startRecord reopenGraph dxHeuristic 0 4] []
      (startRecord reopenGraph dxHeuristic 0 4)
      = SearchOutcome.done ⟨4, some ⟨1, 4, 10⟩, 14, 14⟩
          [⟨0, none, 0, 5⟩, ⟨2, some ⟨0, 2, 1⟩, 1, 11⟩,
           ⟨3, some ⟨2, 3, 1⟩, 2, 12⟩] := by
    decide
  have hm : searchLoop reopenGraph dxHeuristic 4 (f1 + 5)
      [startRecord reopenGraph dxHeuristic 0 4] []
      (startRecord reopenGraph dxHeuristic 0 4)
      = SearchOutcome.done ⟨4, some ⟨1, 4, 10⟩, 14, 14⟩
          [⟨0, none, 0, 5⟩, ⟨2, some ⟨0, 2, 1⟩, 1, 11⟩,
           ⟨3, some ⟨2, 3, 1⟩, 2, 12⟩] := by
    rw [searchLoop_mono reopenGraph dxHeuristic 4 5 (f1 + 5) (by omega) _ _ _
      (by rw [h5]; simp), h5]
  have hstuck := @reconLoop_stuck 0 ⟨4, some ⟨1, 4, 10⟩, 14, 14⟩ ⟨1, 4, 10⟩
      [⟨0, none, 0, 5⟩, ⟨2, some ⟨0, 2, 1⟩, 1, 11⟩, ⟨3, some ⟨2, 3, 1⟩, 2, 12⟩]
      (by decide) rfl (by decide) [4] f2
  unfold findPath
  simp only [hm, hstuck]

/-- C6 counterexample: `FindPath` on the disconnected `noPathGraph` returns
the sequence [0, 2], whose only consecutive pair (0, 2) is joined by no
stored connection — so not every returned sequence is a valid directed
path. -/
theorem c6_counterexample :
    findPath noPathGraph zeroHeuristic 0 2 10 10 = FindPathResult.path [0, 2] ∧
    ¬ IsConn noPathGraph 0 2 := by
  decide

/-- C6 (amended): for every call whose search loop exits by selecting a
record of the goal node and whose reconstruction loop terminates with a
path, every consecutive pair (u, v) of the returned sequence is joined by a
stored connection from u to v. -/
theorem c6_path_validity (G : Graph) (h : ℚ → ℚ → ℚ) (s goal f1 f2 : Nat)
    (cur : NodeRecord) (closedL : List NodeRecord) (p : List Nat)
    (hdone : searchLoop G h goal f1 [startRecord G h s goal] []
        (startRecord G h s goal) = SearchOutcome.done cur closedL)
    (hgoal : cur.pNode = goal)
    (hrecon : reconLoop s f2 cur closedL [goal] = ReconResult.ok p) :
    findPath G h s goal f1 f2 = FindPathResult.path p.reverse ∧
    List.Chain' (IsConn G) p.reverse := by
  have hstart : RecordOK G s (startRecord G h s goal) := by
    refine ⟨fun _ => rfl, ?_⟩
    intro c hc
    simp [startRecord] at hc
  have hok := searchLoop_ok f1 [startRecord G h s goal] []
      (startRecord G h s goal) cur closedL
      (by intro r hr; rcases List.mem_singleton.mp hr with rfl; exact hstart)
      (by intro r hr; simp at hr) hstart hdone
  have hchain := reconLoop_chain f2 cur closedL [goal] p hok.1 hok.2
      (by simp [hgoal]) (List.chain'_singleton _) hrecon
  refine ⟨?_, ?_⟩
  · unfold findPath
    simp only [hdone, hrecon]
  · rw [List.chain'_reverse]
    exact hchain

/-- Witness for the amended C6 at the spec graph: the successful run
A→B→D of `c1_demo_run`, whose consecutive pairs are stored connections. -/
theorem c6_path_validity_witness :
    findPath demoGraph zeroHeuristic 0 3 10 10
        = FindPathResult.path ([3, 1, 0] : List Nat).reverse ∧
    List.Chain' (IsConn demoGraph) ([3, 1, 0] : List Nat).reverse :=
  c6_path_validity demoGraph zeroHeuristic 0 3 10 10
    ⟨3, some ⟨1, 3, 5⟩, 6, 6⟩ [⟨0, none, 0, 0⟩, ⟨1, some ⟨0, 1, 1⟩, 1, 1⟩]
    [3, 1, 0] (by decide) rfl (by decide)

/-- C7: when start equals goal, `FindPath` returns the single-node sequence
[n], for every graph, heuristic, positive search fuel and any
reconstruction fuel: the start record is selected at once, the break fires,
and the reconstruction loop exits immediately. -/
theorem c7_start_eq_goal (G : Graph) (h : ℚ → ℚ → ℚ) (n f1 f2 : Nat) :
    findPath G h n n (f1 + 1) f2 = FindPathResult.path [n] := by
  have hsel : selectLowest (startRecord G h n n) [startRecord G h n n]
      = startRecord G h n n := by
    simp [selectLowest]
  have hgoalsel : (selectLowest (startRecord G h n n)
      [startRecord G h n n]).pNode = n := by
    rw [hsel]; rfl
  have hdone := @searchLoop_cons_goal G h n (startRecord G h n n) [] hgoalsel
    f1 [] (startRecord G h n n)
  rw [hsel] at hdone
  have hexit := @reconLoop_exit n (startRecord G h n n) rfl f2 [] [n]
  unfold findPath
  simp only [hdone, hexit, List.reverse_singleton]

/-- C8: the record selected in step 2.a from a non-empty open list
`r0 :: rest` is a record of the list with minimal f-cost, and every record
stored before it has strictly greater f-cost — so ties on the minimal
f-cost are broken in favour of the earliest stored (first-encountered)
record, not by any secondary comparison. -/
theorem c8_selection_stable_min (r0 : NodeRecord) (rest : List NodeRecord) :
    ∃ i, ∃ hi : i < (r0 :: rest).length,
      selectLowest r0 (r0 :: rest) = (r0 :: rest).get ⟨i, hi⟩ ∧
      (∀ r ∈ r0 :: rest, (selectLowest r0 (r0 :: rest)).fCost ≤ r.fCost) ∧
      ∀ r ∈ (r0 :: rest).take i, (selectLowest r0 (r0 :: rest)).fCost < r.fCost := by
  obtain ⟨h1, h2, h3⟩ := selectLowest_spec (r0 :: rest) r0
  rcases h3 with heq | ⟨i, hi, heq, _, hstrict⟩
  · exact ⟨0, by simp, by simpa using heq, h2, by simp⟩
  · exact ⟨i, hi, heq, h2, hstrict⟩

/-- C9: a `FindPath` call has no side effect on the `AStar` object — the
state-threaded run returns the stored graph and heuristic unchanged, and
its result is that of the pure function of the borrowed graph and
heuristic. -/
theorem c9_no_side_effects (a : AStarObj) (s goal f1 f2 : Nat) :
    (findPathSt a s goal f1 f2).2 = a ∧
    (findPathSt a s goal f1 f2).1
      = findPath a.m_pGraph a.m_HeuristicFunction s goal f1 f2 := by
  rw [findPathSt_eq]
  exact ⟨rfl, rfl⟩

/-- C10: on any graph whose stored connections all have non-negative cost,
no `FindPath` run ever fails the step 2.g `assert`: the record selected for
expansion can only be erased during its own expansion by a self-loop
candidate that is strictly cheaper, which needs a negative cost. -/
theorem c10_assert_never_fires (G : Graph) (h : ℚ → ℚ → ℚ) (s goal f1 f2 : Nat)
    (hc : ∀ c ∈ G.conns, 0 ≤ c.cost) :
    findPath G h s goal f1 f2 ≠ FindPathResult.assertFailed := by
  unfold findPath
  cases hS : searchLoop G h goal f1 [startRecord G h s goal] []
      (startRecord G h s goal) with
  | done cur closedL =>
    cases hR : reconLoop s f2 cur closedL [goal] <;> simp [hR]
  | assertFailed => exact absurd hS (searchLoop_no_assert G h goal hc f1 _ _ _)
  | outOfFuel => simp

/-- Witness for C10 at the spec graph (all costs non-negative). -/
theorem c10_assert_witness :
    (∀ c ∈ demoGraph.conns, 0 ≤ c.cost) ∧
    findPath demoGraph zeroHeuristic 0 3 10 10 ≠ FindPathResult.assertFailed :=
  ⟨by decide, c10_assert_never_fires demoGraph zeroHeuristic 0 3 10 10 (by decide)⟩
